import Mathlib

/-!
Verification of the cyberpoet-node poetry engine against its specification.

The development shallowly embeds the TypeScript sources
(src/services/poetry-engine.ts, the structure generator and the word
selector, src/services/data-service.ts) into Lean:

- JavaScript strings are Lean strings (lists of characters); the UTF-16
  details do not matter for the BMP characters the program manipulates.
- String.prototype.trim is embedded as jsTrim over the character list;
  toLowerCase and toUpperCase are embedded on the ASCII range, which is
  the only range the program relies on (POS tags and rhyme schemes are
  ASCII; CJK characters are unaffected by JS case mapping as well).
- Math.floor(Math.random() * n) is embedded as an oracle stream
  rng : Nat -> Nat consumed at an index k, reduced modulo n; quantifying
  over rng covers every sequence of draws the program can see.
- Code that throws returns Option, with none for a thrown error.
-/

namespace CyberPoet

/-- The random source: an infinite stream of natural numbers. Index k is
the next draw. -/
abbrev Rng := Nat → Nat

/-- Embedding of Math.floor(Math.random() * n): an arbitrary value of the
stream reduced into the interval [0, n). -/
def randomBelow (rng : Rng) (k : Nat) (n : Nat) : Nat := rng k % n

/-! ### JavaScript string primitives -/

/-- The whitespace class stripped by String.prototype.trim (WhiteSpace and
LineTerminator code points). -/
def isJsWhitespace (c : Char) : Bool :=
  [9, 10, 11, 12, 13, 32, 160, 0x1680, 0x2000, 0x2001, 0x2002, 0x2003,
   0x2004, 0x2005, 0x2006, 0x2007, 0x2008, 0x2009, 0x200a, 0x2028, 0x2029,
   0x202f, 0x205f, 0x3000, 0xfeff].contains c.toNat

/-- ASCII fragment of String.prototype.toLowerCase on one character. -/
def jsLowerChar (c : Char) : Char :=
  if 65 ≤ c.toNat ∧ c.toNat ≤ 90 then Char.ofNat (c.toNat + 32) else c

/-- ASCII fragment of String.prototype.toUpperCase on one character. -/
def jsUpperChar (c : Char) : Char :=
  if 97 ≤ c.toNat ∧ c.toNat ≤ 122 then Char.ofNat (c.toNat - 32) else c

/-- Is the character an ASCII lowercase letter. -/
def isAsciiLower (c : Char) : Bool := 97 ≤ c.toNat && c.toNat ≤ 122

def jsLower (s : String) : String := ⟨s.data.map jsLowerChar⟩

def jsUpper (s : String) : String := ⟨s.data.map jsUpperChar⟩

def trimLeftChars (l : List Char) : List Char := l.dropWhile isJsWhitespace

def trimRightChars (l : List Char) : List Char :=
  (l.reverse.dropWhile isJsWhitespace).reverse

def trimChars (l : List Char) : List Char := trimRightChars (trimLeftChars l)

/-- Embedding of String.prototype.trim. -/
def jsTrim (s : String) : String := ⟨trimChars s.data⟩

/-- Embedding of the indexOf('/') / substring idiom used by the word
selector: locate the first separator and return the text before and after
it, or none when the string has no separator (indexOf returning -1). -/
def splitFirstSlash : List Char → Option (List Char × List Char)
  | [] => none
  | c :: rest =>
    if c = '/' then some ([], rest)
    else (splitFirstSlash rest).map (fun p => (c :: p.1, p.2))

/-- Embedding of word.includes('/'). -/
def hasSlash (s : String) : Bool := s.data.contains '/'

/-! ### Data model (src/types) -/

/-- One lexicon entry (WordRecord in src/types). -/
structure WordRecord where
  word : String
  vowel : String
  property : String
deriving Repr, DecidableEq

instance : Inhabited WordRecord := ⟨⟨"", "", ""⟩⟩

/-- One sentence-structure template (SentenceStructure in src/types). -/
structure SentenceStructure where
  limitedRhyme : String
  compoundStructureCount : Nat
  punctuation : String
  elements : List String
deriving Repr, DecidableEq

instance : Inhabited SentenceStructure := ⟨⟨"", 0, "", []⟩⟩

/-- A per-line expansion of a template (WorkingStructure in src/types). -/
structure WorkingStructure where
  compoundStructureCount : Nat
  punctuation : String
  elements : List String
deriving Repr, DecidableEq

instance : Inhabited WorkingStructure := ⟨⟨0, "", []⟩⟩

/-- One entry of the special-word table. -/
structure SpecialWord where
  content : String
deriving Repr, DecidableEq

inductive PoeticStyle where
  | quiet
  | bold
deriving Repr, DecidableEq

/-- Options taken by PoetryEngine.generatePoetry. The optional rhyme
scheme is none when the caller passes undefined. -/
structure PoetryGenerationOptions where
  style : PoeticStyle
  paragraphCount : Nat
  linesPerParagraph : Nat
  useRhyme : Bool
  rhymeScheme : Option String
deriving Repr, DecidableEq

/-- The in-memory tables served by DataService (the external store). The
core only reads them. -/
structure DataService where
  nouns : List WordRecord
  adjectives : List WordRecord
  intransitiveVerbs : List WordRecord
  transitiveVerbs : List WordRecord
  interjections : List WordRecord
  sentenceStructures : List SentenceStructure
  specialWords : List SpecialWord
deriving Repr, DecidableEq

/-- DataService.getWordsByPartOfSpeech: pool lookup per POS tag; the
default branch throws (none). -/
def getWordsByPartOfSpeech (ds : DataService) (partOfSpeech : String) :
    Option (List WordRecord) :=
  if partOfSpeech = "MM" ∨ partOfSpeech = "MC" ∨ partOfSpeech = "MR" then
    some ds.nouns
  else if partOfSpeech = "DD" ∨ partOfSpeech = "DI" ∨ partOfSpeech = "DV" ∨
      partOfSpeech = "DO" then
    some ds.intransitiveVerbs
  else if partOfSpeech = "DJ" then some ds.transitiveVerbs
  else if partOfSpeech = "XA" then some ds.adjectives
  else if partOfSpeech = "TT" then some ds.interjections
  else if partOfSpeech = "SS" then
    some (ds.specialWords.map (fun sw => ⟨sw.content, "", ""⟩))
  else none

/-! ### Word selector (WordSelector in src/services) -/

/-- WordSelector.getRandomWord: throws (none) on an empty list, otherwise
one uniform draw. The returned number is the next unread stream index. -/
def getRandomWord (words : List WordRecord) (rng : Rng) (k : Nat) :
    Option (WordRecord × Nat) :=
  if words.isEmpty then none
  else some (words.getD (randomBelow rng k words.length) default, k + 1)

/-- WordSelector.getRandomRhymingWord: filter by vowel, then draw (throws
when the filtered list is empty). -/
def getRandomRhymingWord (words : List WordRecord) (rhymeScheme : String)
    (rng : Rng) (k : Nat) : Option (WordRecord × Nat) :=
  getRandomWord (words.filter (fun w => w.vowel == rhymeScheme)) rng k

/-- WordSelector.selectBasicWord (MM, TT, DJ, XA). The rhyme branch is
guarded by the JS truthiness test needsRhyme && rhymeScheme: an absent
scheme and the falsy empty-string scheme both skip the filter. -/
def selectBasicWord (words : List WordRecord) (needsRhyme : Bool)
    (rhymeScheme : Option String) (rng : Rng) (k : Nat) :
    Option (String × Nat) :=
  match needsRhyme, rhymeScheme with
  | true, some scheme =>
    if scheme = "" then
      (getRandomWord words rng k).map (fun p => (p.1.word, p.2))
    else
      let rhymingWords := words.filter (fun w => w.vowel == scheme)
      if rhymingWords.isEmpty then
        (getRandomWord words rng k).map (fun p => (p.1.word, p.2))
      else
        (getRandomWord rhymingWords rng k).map (fun p => (p.1.word, p.2))
  | _, _ => (getRandomWord words rng k).map (fun p => (p.1.word, p.2))

/-- WordSelector.selectIntransitiveVerb (DD): rhyme-filtered draw with no
fallback (under the JS truthiness guard, so the falsy empty-string scheme
takes the plain unfiltered draw), then the separator is removed by direct
concatenation. -/
def selectIntransitiveVerb (words : List WordRecord) (needsRhyme : Bool)
    (rhymeScheme : Option String) (rng : Rng) (k : Nat) :
    Option (String × Nat) :=
  let selected : Option (WordRecord × Nat) :=
    match needsRhyme, rhymeScheme with
    | true, some scheme =>
      if scheme = "" then getRandomWord words rng k
      else getRandomRhymingWord words scheme rng k
    | _, _ => getRandomWord words rng k
  match selected with
  | none => none
  | some (w, next) =>
    match splitFirstSlash w.word.data with
    | some (a, b) => some ((⟨a ++ b⟩ : String), next)
    | none => some (w.word, next)

/-- WordSelector.selectLocationNoun (MC). -/
def selectLocationNoun (words : List WordRecord) (needsRhyme : Bool)
    (rhymeScheme : Option String) (rng : Rng) (k : Nat) :
    Option (String × Nat) :=
  let locationWords := words.filter (fun w =>
    w.property == "时间" || w.property == "地点" || w.property == "地名")
  match needsRhyme, rhymeScheme with
  | true, some scheme =>
    if scheme = "" then
      if locationWords.isEmpty then none
      else (getRandomWord locationWords rng k).map (fun p => (p.1.word, p.2))
    else
      let rhymingLocationWords :=
        locationWords.filter (fun w => w.vowel == scheme)
      if rhymingLocationWords.isEmpty then
        if locationWords.isEmpty then none
        else
          (getRandomWord locationWords rng k).map (fun p => (p.1.word, p.2))
      else
        (getRandomWord rhymingLocationWords rng k).map (fun p =>
          (p.1.word, p.2))
  | _, _ =>
    if locationWords.isEmpty then none
    else (getRandomWord locationWords rng k).map (fun p => (p.1.word, p.2))

/-- WordSelector.selectPersonNoun (MR). -/
def selectPersonNoun (words : List WordRecord) (needsRhyme : Bool)
    (rhymeScheme : Option String) (rng : Rng) (k : Nat) :
    Option (String × Nat) :=
  let personWords := words.filter (fun w =>
    w.property == "人物" || w.property == "人名")
  match needsRhyme, rhymeScheme with
  | true, some scheme =>
    if scheme = "" then
      if personWords.isEmpty then none
      else (getRandomWord personWords rng k).map (fun p => (p.1.word, p.2))
    else
      let rhymingPersonWords :=
        personWords.filter (fun w => w.vowel == scheme)
      if rhymingPersonWords.isEmpty then
        if personWords.isEmpty then none
        else (getRandomWord personWords rng k).map (fun p => (p.1.word, p.2))
      else
        (getRandomWord rhymingPersonWords rng k).map (fun p =>
          (p.1.word, p.2))
  | _, _ =>
    if personWords.isEmpty then none
    else (getRandomWord personWords rng k).map (fun p => (p.1.word, p.2))

/-- WordSelector.selectSimpleVerb (DI): verbs without a separator. -/
def selectSimpleVerb (words : List WordRecord) (rng : Rng) (k : Nat) :
    Option (String × Nat) :=
  let simpleVerbs := words.filter (fun w => !(hasSlash w.word))
  if simpleVerbs.isEmpty then none
  else (getRandomWord simpleVerbs rng k).map (fun p => (p.1.word, p.2))

/-- WordSelector.selectProgressiveVerb (DV): splittable verbs, rhyme
filter with fallback, then the progressive suffix is inserted at the
separator. -/
def selectProgressiveVerb (words : List WordRecord) (needsRhyme : Bool)
    (rhymeScheme : Option String) (rng : Rng) (k : Nat) :
    Option (String × Nat) :=
  let splittable := words.filter (fun w => hasSlash w.word)
  let candidateWords : List WordRecord :=
    match needsRhyme, rhymeScheme with
    | true, some scheme =>
      if scheme = "" then splittable
      else
        let rhymingWords := splittable.filter (fun w => w.vowel == scheme)
        if rhymingWords.isEmpty then splittable else rhymingWords
    | _, _ => splittable
  if candidateWords.isEmpty then none
  else
    match getRandomWord candidateWords rng k with
    | none => none
    | some (w, next) =>
      match splitFirstSlash w.word.data with
      | some (a, b) => some ((⟨a⟩ : String) ++ "着" ++ (⟨b⟩ : String), next)
      | none => some (w.word ++ "着", next)

/-- WordSelector.selectResultativeVerb (DO): splittable verbs, reordered
as complement + stem + suffix. -/
def selectResultativeVerb (words : List WordRecord) (rng : Rng) (k : Nat) :
    Option (String × Nat) :=
  let candidateWords := words.filter (fun w => hasSlash w.word)
  if candidateWords.isEmpty then none
  else
    match getRandomWord candidateWords rng k with
    | none => none
    | some (w, next) =>
      match splitFirstSlash w.word.data with
      | some (a, b) =>
        some (jsTrim (⟨b⟩ : String) ++ (⟨a⟩ : String) ++ "得", next)
      | none => some (w.word ++ "得", next)

/-- WordSelector.selectSpecialWord (SS): empty pool yields the empty
string, not an error. -/
def selectSpecialWord (ds : DataService) (rng : Rng) (k : Nat) :
    Option (String × Nat) :=
  if ds.specialWords.isEmpty then some ("", k)
  else
    some ((ds.specialWords.getD (randomBelow rng k ds.specialWords.length)
      ⟨""⟩).content, k + 1)

/-- WordSelector.selectWord: pool lookup plus dispatch on the POS tag;
unknown tags throw (none). -/
def selectWord (ds : DataService) (partOfSpeech : String) (needsRhyme : Bool)
    (rhymeScheme : Option String) (rng : Rng) (k : Nat) :
    Option (String × Nat) :=
  match getWordsByPartOfSpeech ds partOfSpeech with
  | none => none
  | some words =>
    if partOfSpeech = "MM" ∨ partOfSpeech = "TT" ∨ partOfSpeech = "DJ" ∨
        partOfSpeech = "XA" then
      selectBasicWord words needsRhyme rhymeScheme rng k
    else if partOfSpeech = "DD" then
      selectIntransitiveVerb words needsRhyme rhymeScheme rng k
    else if partOfSpeech = "MC" then
      selectLocationNoun words needsRhyme rhymeScheme rng k
    else if partOfSpeech = "MR" then
      selectPersonNoun words needsRhyme rhymeScheme rng k
    else if partOfSpeech = "DI" then
      selectSimpleVerb words rng k
    else if partOfSpeech = "DV" then
      selectProgressiveVerb words needsRhyme rhymeScheme rng k
    else if partOfSpeech = "DO" then
      selectResultativeVerb words rng k
    else if partOfSpeech = "SS" then
      selectSpecialWord ds rng k
    else none

/-- WordSelector.normalizeRhymeScheme switch body, after the lowercasing
and trimming of the scrutinee. -/
def applyRhymeMapping (y : String) : String :=
  if y = "o" ∨ y = "uo" then "e"
  else if y = "ui" then "ei"
  else if y = "in" ∨ y = "un" ∨ y = "vn" then "en"
  else if y = "ing" then "eng"
  else if y = "ve" then "ie"
  else if y = "iu" then "ou"
  else if y = "z" then "r"
  else y

/-- WordSelector.normalizeRhymeScheme. -/
def normalizeRhymeScheme (rhyme : String) : String :=
  applyRhymeMapping (jsTrim (jsLower rhyme))

/-! ### Structure generator (StructureGenerator in src/services) -/

/-- StructureGenerator.shouldLineRhyme: the parity rule for rhyme need. -/
def shouldLineRhyme (lineIndex totalLines : Nat) : Bool :=
  if totalLines % 2 = 0 then lineIndex == 1 || lineIndex % 2 == 0
  else (lineIndex + 1) % 2 == 0

/-- The rhyme rejection test shared by both style selectors: an atomic
template (compoundStructureCount = 0) is rejected, when a rhyme is needed
and a truthy scheme given (the empty-string scheme is falsy in the JS
guard and never rejects), unless its limitedRhyme is the scheme or the
sentinel "E". -/
def rhymeRejected (s : SentenceStructure) (needsRhyme : Bool)
    (rhymeScheme : Option String) : Bool :=
  match needsRhyme, rhymeScheme with
  | true, some scheme =>
    !(scheme == "") && s.compoundStructureCount == 0 &&
      !(s.limitedRhyme == scheme) && !(s.limitedRhyme == "E")
  | _, _ => false

/-- The body of the StructureGenerator.selectQuietStructure retry loop.
The fuel counts the remaining attempts (100 at the top call); each
iteration consumes one random draw. Exhausted fuel falls back to the
first template. The quiet test reads element 10 of the raw template
(elements[9] === two single quotes), which on a short array compares
undefined and fails, hence the List.get? comparison. -/
def selectQuietLoop (structures : List SentenceStructure) (needsRhyme : Bool)
    (rhymeScheme : Option String) (rng : Rng) :
    Nat → Nat → SentenceStructure × Nat
  | 0, k => (structures.headD default, k)
  | fuel + 1, k =>
    let s := structures.getD (randomBelow rng k structures.length) default
    if !(s.elements.get? 9 == some "") then
      selectQuietLoop structures needsRhyme rhymeScheme rng fuel (k + 1)
    else if rhymeRejected s needsRhyme rhymeScheme then
      selectQuietLoop structures needsRhyme rhymeScheme rng fuel (k + 1)
    else (s, k + 1)

/-- The body of the StructureGenerator.selectBoldStructure retry loop:
same rhyme rejection rule, no quiet restriction. -/
def selectBoldLoop (structures : List SentenceStructure) (needsRhyme : Bool)
    (rhymeScheme : Option String) (rng : Rng) :
    Nat → Nat → SentenceStructure × Nat
  | 0, k => (structures.headD default, k)
  | fuel + 1, k =>
    let s := structures.getD (randomBelow rng k structures.length) default
    if rhymeRejected s needsRhyme rhymeScheme then
      selectBoldLoop structures needsRhyme rhymeScheme rng fuel (k + 1)
    else (s, k + 1)

/-- StructureGenerator.selectQuietStructure: 100 attempts of rejection
sampling; indexing an empty table throws (none). -/
def selectQuietStructure (structures : List SentenceStructure)
    (needsRhyme : Bool) (rhymeScheme : Option String) (rng : Rng) (k : Nat) :
    Option (SentenceStructure × Nat) :=
  if structures.isEmpty then none
  else some (selectQuietLoop structures needsRhyme rhymeScheme rng 100 k)

/-- StructureGenerator.selectBoldStructure: 100 attempts of rejection
sampling; indexing an empty table throws (none). -/
def selectBoldStructure (structures : List SentenceStructure)
    (needsRhyme : Bool) (rhymeScheme : Option String) (rng : Rng) (k : Nat) :
    Option (SentenceStructure × Nat) :=
  if structures.isEmpty then none
  else some (selectBoldLoop structures needsRhyme rhymeScheme rng 100 k)

/-- The style dispatch inside the first createStructure loop. -/
def selectStructureByStyle (style : PoeticStyle)
    (structures : List SentenceStructure) (needsRhyme : Bool)
    (rhymeScheme : Option String) (rng : Rng) (k : Nat) :
    Option (SentenceStructure × Nat) :=
  match style with
  | .quiet => selectQuietStructure structures needsRhyme rhymeScheme rng k
  | .bold => selectBoldStructure structures needsRhyme rhymeScheme rng k

/-- One step of the element walk in
StructureGenerator.processStructureElements: the compound expansion for
the legacy plain-intransitive code "Dd" under the sentinel rhyme "E",
the uppercase normalization of codes whose first character equals its own
lowercase image, and the pass-through of everything else. -/
def processElement (element : String) (limitedRhyme : String) : List String :=
  if element = "Dd" ∧ limitedRhyme = "E" then ["DV", "着", "DO"]
  else if element.data.length = 2 ∧
      jsLowerChar (element.data.headD ' ') = element.data.headD ' ' then
    [jsUpper element]
  else [element]

/-- The element walk of processStructureElements: read slots 0..26 with
the or-empty guard and stop at the first empty slot. -/
def truncatedElements (elements : List String) : List String :=
  ((List.range 27).map (fun i => elements.getD i "")).takeWhile
    (fun e => e ≠ "")

/-- All slots a template expands to, before padding. -/
def expandElements (t : SentenceStructure) : List String :=
  (truncatedElements t.elements).flatMap
    (fun e => processElement e t.limitedRhyme)

/-- The final padding loop: push empty strings while the length is below
30 (no truncation when the expansion is already longer). -/
def padTo30 (l : List String) : List String :=
  l ++ List.replicate (30 - l.length) ""

/-- StructureGenerator.processStructureElements. The needsRhyme and
rhymeScheme parameters are declared by the source function and are kept
here; its body never reads them. -/
def processStructureElements (struct : SentenceStructure)
    (needsRhyme : Bool) (rhymeScheme : Option String) : WorkingStructure :=
  { compoundStructureCount := struct.compoundStructureCount
    punctuation := struct.punctuation
    elements := padTo30 (expandElements struct) }

/-- The first loop of StructureGenerator.createStructure: one template
per line position 1..linesPerParagraph, rhyme need keyed by the position
within a paragraph. The first argument of the recursion is the number of
remaining positions, so the current position is total minus that. -/
def selectTempLoop (structures : List SentenceStructure) (style : PoeticStyle)
    (rhymeScheme : Option String) (rng : Rng) (total : Nat) :
    Nat → Nat → Option (List SentenceStructure × Nat)
  | 0, k => some ([], k)
  | n + 1, k =>
    let lineIndex := total - n
    match selectStructureByStyle style structures
        (shouldLineRhyme lineIndex total) rhymeScheme rng k with
    | none => none
    | some (s, next) =>
      match selectTempLoop structures style rhymeScheme rng total n next with
      | none => none
      | some (rest, final) => some (s :: rest, final)

/-- The lines of one paragraph in the second createStructure loop: every
base template expanded with the rhyme flag of the enclosing paragraph. -/
def paragraphBlock (temp : List SentenceStructure) (needsRhyme : Bool)
    (rhymeScheme : Option String) (linesPerParagraph : Nat) :
    List WorkingStructure :=
  (List.range linesPerParagraph).map (fun l =>
    processStructureElements (temp.getD l default) needsRhyme rhymeScheme)

/-- The second loop of createStructure: paragraphs 1..paragraphCount in
order, each recomputing the rhyme flag from the paragraph index against
the paragraph count. -/
def buildWorking (temp : List SentenceStructure) (paragraphCount : Nat)
    (linesPerParagraph : Nat) (rhymeScheme : Option String) :
    List WorkingStructure :=
  (List.range paragraphCount).flatMap (fun p =>
    paragraphBlock temp (shouldLineRhyme (p + 1) paragraphCount) rhymeScheme
      linesPerParagraph)

/-- StructureGenerator.createStructure. -/
def createStructure (ds : DataService) (paragraphCount : Nat)
    (linesPerParagraph : Nat) (style : PoeticStyle)
    (rhymeScheme : Option String) (rng : Rng) (k : Nat) :
    Option (List WorkingStructure × Nat) :=
  match selectTempLoop ds.sentenceStructures style rhymeScheme rng
      linesPerParagraph linesPerParagraph k with
  | none => none
  | some (temp, next) =>
    some (buildWorking temp paragraphCount linesPerParagraph rhymeScheme, next)

/-! ### Line composer (PoetryEngine in src/services) -/

/-- The canonical POS tag set of the engine. -/
def posTags : List String :=
  ["MM", "MC", "MR", "DD", "DI", "DV", "DO", "DJ", "XA", "TT", "SS"]

/-- The legacy slot codes recognized by PoetryEngine.isPartOfSpeech. -/
def legacyKeys : List String :=
  ["XX", "Mm", "Mr", "Mc", "DB", "Dd", "Dv", "Do"]

/-- PoetryEngine.isPartOfSpeech. -/
def isPartOfSpeech (element : String) : Bool :=
  posTags.contains element || posTags.contains (jsUpper element) ||
    legacyKeys.contains element

/-- PoetryEngine.normalizePartOfSpeech: explicit legacy mapping, then the
uppercase image when canonical, then the identity when canonical, with
noun as the warned default. -/
def normalizePartOfSpeech (element : String) : String :=
  if element = "XX" then "XA"
  else if element = "Mm" then "MM"
  else if element = "Mr" then "MR"
  else if element = "Mc" then "MC"
  else if element = "DB" then "DD"
  else if element = "Dd" then "DD"
  else if element = "Dv" then "DV"
  else if element = "Do" then "DO"
  else if posTags.contains (jsUpper element) then jsUpper element
  else if posTags.contains element then element
  else "MM"

/-- The while loop of PoetryEngine.generateLine: walk the slots by index
below 27, stop at the first empty slot, resolve POS slots through the
word selector (DV and DO advance two extra positions), append literal
slots verbatim. The fuel is an upper bound on the iterations; 27 suffices
since the index grows each step. -/
def generateLineLoop (ds : DataService) (useRhyme : Bool)
    (rhymeScheme : Option String) (rng : Rng) (elements : List String) :
    Nat → Nat → Nat → String → Option (String × Nat)
  | 0, _, k, acc => some (acc, k)
  | fuel + 1, elementIndex, k, acc =>
    if elementIndex < 27 then
      let element := elements.getD elementIndex ""
      if element = "" then some (acc, k)
      else if isPartOfSpeech element then
        let partOfSpeech := normalizePartOfSpeech element
        match selectWord ds partOfSpeech useRhyme rhymeScheme rng k with
        | none => none
        | some (word, next) =>
          if partOfSpeech = "DV" ∨ partOfSpeech = "DO" then
            generateLineLoop ds useRhyme rhymeScheme rng elements fuel
              (elementIndex + 3) next (acc ++ word)
          else
            generateLineLoop ds useRhyme rhymeScheme rng elements fuel
              (elementIndex + 1) next (acc ++ word)
      else
        generateLineLoop ds useRhyme rhymeScheme rng elements fuel
          (elementIndex + 1) k (acc ++ element)
    else some (acc, k)

/-- PoetryEngine.generateLine: walk the structure, append the line-final
punctuation, trim. -/
def generateLine (ds : DataService) (struct : WorkingStructure)
    (options : PoetryGenerationOptions) (rng : Rng) (k : Nat) :
    Option (String × Nat) :=
  (generateLineLoop ds options.useRhyme options.rhymeScheme rng
      struct.elements 27 0 k "").map
    (fun p => (jsTrim (p.1 ++ struct.punctuation), p.2))

/-- The rendering loop of PoetryEngine.generatePoetry: one line per
working structure, in order. -/
def renderAll (ds : DataService) (options : PoetryGenerationOptions)
    (rng : Rng) : List WorkingStructure → Nat → Option (List String × Nat)
  | [], k => some ([], k)
  | s :: rest, k =>
    match generateLine ds s options rng k with
    | none => none
    | some (line, next) =>
      match renderAll ds options rng rest next with
      | none => none
      | some (lines, final) => some (line :: lines, final)

/-- PoetryEngine.generatePoetry: create the working structures, then
render each into a line. The returned value is the lines array of the
GeneratedPoem. -/
def generatePoetry (ds : DataService) (options : PoetryGenerationOptions)
    (rng : Rng) (k : Nat) : Option (List String × Nat) :=
  match createStructure ds options.paragraphCount options.linesPerParagraph
      options.style options.rhymeScheme rng k with
  | none => none
  | some (structures, next) => renderAll ds options rng structures next

/-! ### Character lemmas -/

lemma charOfNat_toNat_add32 (t : Nat) (h1 : 65 ≤ t) (h2 : t ≤ 90) :
    (Char.ofNat (t + 32)).toNat = t + 32 := by
  interval_cases t <;> decide

lemma charOfNat_toNat_sub32 (t : Nat) (h1 : 97 ≤ t) (h2 : t ≤ 122) :
    (Char.ofNat (t - 32)).toNat = t - 32 := by
  interval_cases t <;> decide

lemma isJsWhitespace_eq_false_of_alpha (c : Char) (h1 : 65 ≤ c.toNat)
    (h2 : c.toNat ≤ 122) : isJsWhitespace c = false := by
  simp only [isJsWhitespace, List.contains_eq_any_beq, List.any_eq_false]
  intro x hx
  simp only [List.mem_cons, List.not_mem_nil, or_false] at hx
  have hne : c.toNat ≠ x := by omega
  simpa using hne

lemma isJsWhitespace_jsLowerChar (c : Char) :
    isJsWhitespace (jsLowerChar c) = isJsWhitespace c := by
  by_cases h : 65 ≤ c.toNat ∧ c.toNat ≤ 90
  · have hv := charOfNat_toNat_add32 c.toNat h.1 h.2
    have hl : jsLowerChar c = Char.ofNat (c.toNat + 32) := by
      simp [jsLowerChar, h]
    rw [hl, isJsWhitespace_eq_false_of_alpha _ (by omega) (by omega),
      isJsWhitespace_eq_false_of_alpha c (by omega) (by omega)]
  · simp [jsLowerChar, h]

lemma jsLowerChar_idem (c : Char) :
    jsLowerChar (jsLowerChar c) = jsLowerChar c := by
  by_cases h : 65 ≤ c.toNat ∧ c.toNat ≤ 90
  · have hv := charOfNat_toNat_add32 c.toNat h.1 h.2
    have hl : jsLowerChar c = Char.ofNat (c.toNat + 32) := by
      simp [jsLowerChar, h]
    rw [hl]
    simp only [jsLowerChar, hv]
    rw [if_neg (by omega)]
  · simp [jsLowerChar, h]

lemma jsLowerChar_eq_self_of_lower (c : Char) (h : isAsciiLower c = true) :
    jsLowerChar c = c := by
  simp only [isAsciiLower, Bool.and_eq_true, decide_eq_true_eq] at h
  simp only [jsLowerChar]
  rw [if_neg (by omega)]

lemma isAsciiLower_jsUpperChar (c : Char) :
    isAsciiLower (jsUpperChar c) = false := by
  by_cases h : 97 ≤ c.toNat ∧ c.toNat ≤ 122
  · have hv := charOfNat_toNat_sub32 c.toNat h.1 h.2
    have hu : jsUpperChar c = Char.ofNat (c.toNat - 32) := by
      simp [jsUpperChar, h]
    rw [hu]
    simp only [isAsciiLower, hv, Bool.and_eq_false_iff,
      decide_eq_false_iff_not]
    omega
  · have hu : jsUpperChar c = c := by simp [jsUpperChar, h]
    rw [hu]
    simp only [isAsciiLower, Bool.and_eq_false_iff, decide_eq_false_iff_not]
    omega

/-! ### Trim lemmas -/

lemma dropWhile_head_false (p : Char → Bool) (l : List Char) (c : Char)
    (t : List Char) (h : l.dropWhile p = c :: t) : p c = false := by
  induction l with
  | nil => simp at h
  | cons x xs ih =>
    by_cases hx : p x
    · rw [List.dropWhile_cons_of_pos hx] at h
      exact ih h
    · rw [List.dropWhile_cons_of_neg hx] at h
      cases h
      simpa using hx

lemma trimRight_decomp (l : List Char) :
    ∃ z, l = trimRightChars l ++ z ∧ ∀ c ∈ z, isJsWhitespace c = true := by
  refine ⟨(l.reverse.takeWhile isJsWhitespace).reverse, ?_, ?_⟩
  · have h2 := congrArg List.reverse
      (List.takeWhile_append_dropWhile isJsWhitespace l.reverse)
    rw [List.reverse_append, List.reverse_reverse] at h2
    exact h2.symm
  · intro c hc
    rw [List.mem_reverse] at hc
    exact List.mem_takeWhile_imp hc

lemma trimLeft_decomp (l : List Char) :
    ∃ z, l = z ++ trimLeftChars l ∧ ∀ c ∈ z, isJsWhitespace c = true := by
  refine ⟨l.takeWhile isJsWhitespace, ?_, ?_⟩
  · exact (List.takeWhile_append_dropWhile isJsWhitespace l).symm
  · intro c hc
    exact List.mem_takeWhile_imp hc

lemma trimChars_head_false (l : List Char) (c : Char) (t : List Char)
    (h : trimChars l = c :: t) : isJsWhitespace c = false := by
  obtain ⟨z, hz, -⟩ := trimRight_decomp (trimLeftChars l)
  rw [show trimRightChars (trimLeftChars l) = trimChars l from rfl, h] at hz
  exact dropWhile_head_false isJsWhitespace l c (t ++ z)
    (by simpa [trimLeftChars] using hz)

lemma trimChars_reverse (l : List Char) :
    (trimChars l).reverse = (trimLeftChars l).reverse.dropWhile
      isJsWhitespace := by
  simp [trimChars, trimRightChars]

lemma trimChars_last_false (l : List Char) (c : Char) (t : List Char)
    (h : (trimChars l).reverse = c :: t) : isJsWhitespace c = false := by
  rw [trimChars_reverse] at h
  exact dropWhile_head_false isJsWhitespace (trimLeftChars l).reverse c t h

lemma trimChars_nil : trimChars [] = [] := rfl

lemma trimChars_idem (l : List Char) : trimChars (trimChars l) = trimChars l := by
  cases hm : trimChars l with
  | nil => exact trimChars_nil
  | cons c t =>
    have hc : isJsWhitespace c = false := trimChars_head_false l c t hm
    have h1 : trimLeftChars (c :: t) = c :: t := by
      simp [trimLeftChars, List.dropWhile_cons_of_neg, hc]
    obtain ⟨c2, t2, h2⟩ : ∃ c2 t2, (c :: t).reverse = c2 :: t2 := by
      cases hr : (c :: t).reverse with
      | nil => exact absurd (congrArg List.length hr) (by simp)
      | cons a b => exact ⟨a, b, rfl⟩
    have hc2 : isJsWhitespace c2 = false :=
      trimChars_last_false l c2 t2 (by rw [hm, h2])
    show trimChars (c :: t) = c :: t
    unfold trimChars
    rw [h1]
    unfold trimRightChars
    rw [h2, List.dropWhile_cons_of_neg (by simp [hc2]), ← h2,
      List.reverse_reverse]

lemma trimChars_eq_nil_iff (l : List Char) :
    trimChars l = [] ↔ ∀ c ∈ l, isJsWhitespace c = true := by
  constructor
  · intro h c hc
    obtain ⟨z1, hz1, hws1⟩ := trimLeft_decomp l
    obtain ⟨z2, hz2, hws2⟩ := trimRight_decomp (trimLeftChars l)
    have hz2n : trimLeftChars l = z2 := by
      rw [show trimRightChars (trimLeftChars l) = trimChars l from rfl, h]
        at hz2
      simpa using hz2
    rw [hz1, hz2n] at hc
    rcases List.mem_append.mp hc with hm | hm
    · exact hws1 c hm
    · exact hws2 c hm
  · intro h
    have : trimLeftChars l = [] := by
      simp only [trimLeftChars, List.dropWhile_eq_nil_iff]
      exact h
    simp [trimChars, this, trimRightChars]

lemma dropWhile_append_cons (x : List Char) (h : Char) (t : List Char)
    (hh : isJsWhitespace h = false) :
    (x ++ h :: t).dropWhile isJsWhitespace =
      x.dropWhile isJsWhitespace ++ h :: t := by
  induction x with
  | nil => simp [List.dropWhile_cons_of_neg, hh]
  | cons a as ih =>
    by_cases ha : isJsWhitespace a
    · rw [List.cons_append, List.dropWhile_cons_of_pos ha,
        List.dropWhile_cons_of_pos ha, ih]
    · rw [List.cons_append, List.dropWhile_cons_of_neg ha,
        List.dropWhile_cons_of_neg ha]
      simp

lemma trimChars_append_trimmed (x : List Char) (c : Char) (t : List Char)
    (hp : trimChars (c :: t) = c :: t) :
    trimChars (x ++ c :: t) = trimLeftChars x ++ c :: t := by
  have hc : isJsWhitespace c = false := trimChars_head_false (c :: t) c t hp
  obtain ⟨c2, t2, h2⟩ : ∃ c2 t2, (c :: t).reverse = c2 :: t2 := by
    cases hr : (c :: t).reverse with
    | nil => exact absurd (congrArg List.length hr) (by simp)
    | cons a b => exact ⟨a, b, rfl⟩
  have hc2 : isJsWhitespace c2 = false :=
    trimChars_last_false (c :: t) c2 t2 (by rw [hp, h2])
  have step1 : trimLeftChars (x ++ c :: t) = trimLeftChars x ++ c :: t := by
    simpa [trimLeftChars] using dropWhile_append_cons x c t hc
  show trimRightChars (trimLeftChars (x ++ c :: t)) = trimLeftChars x ++ c :: t
  rw [step1]
  unfold trimRightChars
  rw [List.reverse_append, h2, List.cons_append,
    List.dropWhile_cons_of_neg (by simp [hc2]), ← List.cons_append, ← h2,
    ← List.reverse_append, List.reverse_reverse]

lemma dropWhile_map_lower (l : List Char) :
    (l.map jsLowerChar).dropWhile isJsWhitespace =
      (l.dropWhile isJsWhitespace).map jsLowerChar := by
  induction l with
  | nil => rfl
  | cons c t ih =>
    by_cases hw : isJsWhitespace c
    · rw [List.map_cons, List.dropWhile_cons_of_pos
        (by rw [isJsWhitespace_jsLowerChar]; exact hw),
        List.dropWhile_cons_of_pos hw, ih]
    · rw [List.map_cons, List.dropWhile_cons_of_neg
        (by rw [isJsWhitespace_jsLowerChar]; exact hw),
        List.dropWhile_cons_of_neg hw, List.map_cons]

lemma trimChars_map_lower (l : List Char) :
    trimChars (l.map jsLowerChar) = (trimChars l).map jsLowerChar := by
  unfold trimChars trimLeftChars trimRightChars
  rw [dropWhile_map_lower, ← List.map_reverse, dropWhile_map_lower,
    ← List.map_reverse]

/-! ### String-level wrappers -/

lemma string_data_mk (l : List Char) : (⟨l⟩ : String).data = l := rfl

lemma string_data_append (a b : String) :
    (a ++ b).data = a.data ++ b.data := by
  cases a; cases b; rfl

lemma jsLower_jsTrim (s : String) : jsLower (jsTrim s) = jsTrim (jsLower s) :=
  String.ext (by simp [jsLower, jsTrim, trimChars_map_lower])

lemma jsLower_jsLower (s : String) : jsLower (jsLower s) = jsLower s := by
  apply String.ext
  simp only [jsLower, string_data_mk, List.map_map]
  have : jsLowerChar ∘ jsLowerChar = jsLowerChar :=
    funext (fun c => jsLowerChar_idem c)
  rw [this]

lemma jsTrim_jsTrim (s : String) : jsTrim (jsTrim s) = jsTrim s :=
  String.ext (by simp [jsTrim, trimChars_idem])

lemma normScrutinee_stable (x : String) :
    jsTrim (jsLower (jsTrim (jsLower x))) = jsTrim (jsLower x) := by
  rw [jsLower_jsTrim, jsLower_jsLower, jsTrim_jsTrim]

/-! ### Word selector lemmas -/

lemma getD_mem_of_lt {α : Type} [Inhabited α] (l : List α) (i : Nat)
    (h : i < l.length) : l.getD i default ∈ l := by
  rw [List.getD_eq_getElem l default h]
  exact List.getElem_mem h

lemma getRandomWord_spec (words : List WordRecord) (rng : Rng) (k : Nat)
    (w : WordRecord) (next : Nat)
    (h : getRandomWord words rng k = some (w, next)) :
    w ∈ words ∧ next = k + 1 := by
  unfold getRandomWord at h
  by_cases he : words.isEmpty
  · simp [he] at h
  · rw [if_neg he] at h
    have hlen : 0 < words.length := by
      cases words with
      | nil => simp at he
      | cons a l => simp
    have hidx : randomBelow rng k words.length < words.length :=
      Nat.mod_lt (rng k) hlen
    have := getD_mem_of_lt words (randomBelow rng k words.length) hidx
    injection h with h1
    injection h1 with h2 h3
    exact ⟨h2 ▸ this, h3.symm⟩

lemma getRandomWord_empty (rng : Rng) (k : Nat) :
    getRandomWord [] rng k = none := rfl

lemma getRandomWord_singleton (w : WordRecord) (rng : Rng) (k : Nat) :
    getRandomWord [w] rng k = some (w, k + 1) := by
  simp [getRandomWord, randomBelow, Nat.mod_one]

lemma getRandomWord_isSome (words : List WordRecord) (rng : Rng) (k : Nat)
    (h : words ≠ []) :
    getRandomWord words rng k =
      some (words.getD (randomBelow rng k words.length) default, k + 1) := by
  unfold getRandomWord
  rw [if_neg (by simpa using h)]

lemma splitFirstSlash_eq (l : List Char) (a b : List Char)
    (h : splitFirstSlash l = some (a, b)) :
    l = a ++ '/' :: b ∧ '/' ∉ a := by
  induction l generalizing a b with
  | nil => simp [splitFirstSlash] at h
  | cons c rest ih =>
    by_cases hc : c = '/'
    · rw [splitFirstSlash, if_pos hc] at h
      injection h with h1
      injection h1 with h2 h3
      subst h2; subst h3; subst hc
      exact ⟨rfl, by simp⟩
    · rw [splitFirstSlash, if_neg hc] at h
      cases hr : splitFirstSlash rest with
      | none => rw [hr] at h; simp at h
      | some p =>
        obtain ⟨a2, b2⟩ := p
        rw [hr] at h
        simp only [Option.map_some'] at h
        injection h with h1
        injection h1 with h2 h3
        obtain ⟨hra, hnotin⟩ := ih a2 b2 hr
        subst h3
        rw [← h2, hra]
        refine ⟨by simp, ?_⟩
        simp only [List.mem_cons, not_or]
        exact ⟨fun hq => hc hq.symm, hnotin⟩

lemma splitFirstSlash_none_iff (l : List Char) :
    splitFirstSlash l = none ↔ '/' ∉ l := by
  induction l with
  | nil => simp [splitFirstSlash]
  | cons c rest ih =>
    by_cases hc : c = '/'
    · subst hc
      simp [splitFirstSlash]
    · rw [splitFirstSlash, if_neg hc]
      cases hr : splitFirstSlash rest with
      | none =>
        simp only [Option.map_none']
        rw [hr] at ih
        simp only [List.mem_cons, not_or, true_iff]
        exact ⟨fun h => hc h.symm, ih.mp rfl⟩
      | some p =>
        simp only [Option.map_some']
        rw [hr] at ih
        simp only [List.mem_cons]
        constructor
        · intro h; exact absurd h (by simp)
        · intro h
          exfalso
          have : ¬ ('/' ∈ rest) := by tauto
          rw [← ih] at this
          simp [hr] at this

lemma splitFirstSlash_of_mem (l : List Char) (h : '/' ∈ l) :
    ∃ a b, splitFirstSlash l = some (a, b) := by
  cases hs : splitFirstSlash l with
  | none => exact absurd ((splitFirstSlash_none_iff l).mp hs) (by simp [h])
  | some p => exact ⟨p.1, p.2, by simp⟩

lemma trimChars_subset (l : List Char) (c : Char) (h : c ∈ trimChars l) :
    c ∈ l := by
  have h1 : c ∈ trimLeftChars l := by
    unfold trimChars at h
    obtain ⟨z, hz, -⟩ := trimRight_decomp (trimLeftChars l)
    rw [hz]
    exact List.mem_append.mpr (Or.inl h)
  exact ((List.dropWhile_sublist isJsWhitespace).mem h1 :)

/-! ### Selection loop lemmas -/

lemma headD_mem (l : List SentenceStructure) (h : l ≠ []) :
    l.headD default ∈ l := by
  cases l with
  | nil => exact absurd rfl h
  | cons a t => simp

lemma selectQuietLoop_spec (structures : List SentenceStructure)
    (needsRhyme : Bool) (rhymeScheme : Option String) (rng : Rng)
    (h : structures ≠ []) :
    ∀ fuel k,
      (selectQuietLoop structures needsRhyme rhymeScheme rng fuel k).1 ∈
          structures ∧
        (selectQuietLoop structures needsRhyme rhymeScheme rng fuel k).2 ≤
          k + fuel ∧
        (((selectQuietLoop structures needsRhyme rhymeScheme rng fuel
              k).1.elements.get? 9 = some "" ∧
          rhymeRejected (selectQuietLoop structures needsRhyme rhymeScheme rng
            fuel k).1 needsRhyme rhymeScheme = false) ∨
          (selectQuietLoop structures needsRhyme rhymeScheme rng fuel k).1 =
            structures.headD default) := by
  have hlen : 0 < structures.length := by
    cases structures with
    | nil => exact absurd rfl h
    | cons a t => simp
  intro fuel
  induction fuel with
  | zero =>
    intro k
    exact ⟨headD_mem structures h, Nat.le_refl k, Or.inr rfl⟩
  | succ n ih =>
    intro k
    rw [selectQuietLoop]
    set s := structures.getD (randomBelow rng k structures.length) default
      with hs
    have hmem : s ∈ structures :=
      getD_mem_of_lt structures _ (Nat.mod_lt (rng k) hlen)
    by_cases h9 : s.elements.get? 9 == some ""
    · have h9e : s.elements.get? 9 = some "" := eq_of_beq h9
      rw [if_neg (by rw [h9e]; decide)]
      by_cases hrj : rhymeRejected s needsRhyme rhymeScheme
      · rw [if_pos hrj]
        obtain ⟨m1, m2, m3⟩ := ih (k + 1)
        exact ⟨m1, by omega, m3⟩
      · rw [if_neg hrj]
        refine ⟨hmem, by omega, Or.inl ⟨h9e, by simpa using hrj⟩⟩
    · rw [if_pos (by simpa using h9)]
      obtain ⟨m1, m2, m3⟩ := ih (k + 1)
      exact ⟨m1, by omega, m3⟩

lemma selectBoldLoop_spec (structures : List SentenceStructure)
    (needsRhyme : Bool) (rhymeScheme : Option String) (rng : Rng)
    (h : structures ≠ []) :
    ∀ fuel k,
      (selectBoldLoop structures needsRhyme rhymeScheme rng fuel k).1 ∈
          structures ∧
        (selectBoldLoop structures needsRhyme rhymeScheme rng fuel k).2 ≤
          k + fuel ∧
        (rhymeRejected (selectBoldLoop structures needsRhyme rhymeScheme rng
            fuel k).1 needsRhyme rhymeScheme = false ∨
          (selectBoldLoop structures needsRhyme rhymeScheme rng fuel k).1 =
            structures.headD default) := by
  have hlen : 0 < structures.length := by
    cases structures with
    | nil => exact absurd rfl h
    | cons a t => simp
  intro fuel
  induction fuel with
  | zero =>
    intro k
    exact ⟨headD_mem structures h, Nat.le_refl k, Or.inr rfl⟩
  | succ n ih =>
    intro k
    rw [selectBoldLoop]
    set s := structures.getD (randomBelow rng k structures.length) default
      with hs
    have hmem : s ∈ structures :=
      getD_mem_of_lt structures _ (Nat.mod_lt (rng k) hlen)
    by_cases hrj : rhymeRejected s needsRhyme rhymeScheme
    · rw [if_pos hrj]
      obtain ⟨m1, m2, m3⟩ := ih (k + 1)
      exact ⟨m1, by omega, m3⟩
    · rw [if_neg hrj]
      exact ⟨hmem, by omega, Or.inl (by simpa using hrj)⟩

lemma selectStructureByStyle_mem (style : PoeticStyle)
    (structures : List SentenceStructure) (needsRhyme : Bool)
    (rhymeScheme : Option String) (rng : Rng) (k : Nat)
    (s : SentenceStructure) (next : Nat)
    (h : selectStructureByStyle style structures needsRhyme rhymeScheme rng k =
      some (s, next)) : s ∈ structures := by
  have hne : structures ≠ [] := by
    intro hnil
    subst hnil
    cases style <;> simp [selectStructureByStyle, selectQuietStructure,
      selectBoldStructure] at h
  have hf : ¬ (structures.isEmpty = true) := by simpa using hne
  cases style with
  | quiet =>
    simp only [selectStructureByStyle, selectQuietStructure, if_neg hf] at h
    have hspec := (selectQuietLoop_spec structures needsRhyme rhymeScheme rng
      hne 100 k).1
    injection h with h1
    have h2 : (selectQuietLoop structures needsRhyme rhymeScheme rng 100
      k).1 = s := by rw [h1]
    rw [← h2]
    exact hspec
  | bold =>
    simp only [selectStructureByStyle, selectBoldStructure, if_neg hf] at h
    have hspec := (selectBoldLoop_spec structures needsRhyme rhymeScheme rng
      hne 100 k).1
    injection h with h1
    have h2 : (selectBoldLoop structures needsRhyme rhymeScheme rng 100
      k).1 = s := by rw [h1]
    rw [← h2]
    exact hspec

lemma selectTempLoop_spec (structures : List SentenceStructure)
    (style : PoeticStyle) (rhymeScheme : Option String) (rng : Rng)
    (total : Nat) :
    ∀ n k temp next,
      selectTempLoop structures style rhymeScheme rng total n k =
          some (temp, next) →
        temp.length = n ∧ ∀ s ∈ temp, s ∈ structures := by
  intro n
  induction n with
  | zero =>
    intro k temp next h
    rw [selectTempLoop] at h
    injection h with h1
    injection h1 with h2 h3
    subst h2
    exact ⟨rfl, by simp⟩
  | succ m ih =>
    intro k temp next h
    rw [selectTempLoop] at h
    cases hsel : selectStructureByStyle style structures
        (shouldLineRhyme (total - m) total) rhymeScheme rng k with
    | none => rw [hsel] at h; simp at h
    | some p =>
      obtain ⟨s, k2⟩ := p
      rw [hsel] at h
      dsimp only at h
      cases hrest : selectTempLoop structures style rhymeScheme rng total m
          k2 with
      | none => rw [hrest] at h; simp at h
      | some q =>
        obtain ⟨rest, k3⟩ := q
        rw [hrest] at h
        dsimp only at h
        injection h with h1
        injection h1 with h2 h3
        obtain ⟨hlen, hmem⟩ := ih k2 rest k3 hrest
        subst h2
        refine ⟨by simp [hlen], ?_⟩
        intro x hx
        rcases List.mem_cons.mp hx with hx | hx
        · subst hx
          exact selectStructureByStyle_mem style structures _ rhymeScheme rng
            k x k2 hsel
        · exact hmem x hx

/-! ### Working-structure construction lemmas -/

lemma flatMapRange_length {α : Type} (f : Nat → List α) (M : Nat)
    (hf : ∀ i, (f i).length = M) :
    ∀ n, ((List.range n).flatMap f).length = n * M := by
  intro n
  induction n with
  | zero => simp
  | succ m ih =>
    rw [List.range_succ, List.flatMap_append, List.length_append, ih]
    simp only [List.flatMap_cons, List.flatMap_nil, List.append_nil, hf]
    ring

lemma flatMapRange_getD {α : Type} [Inhabited α] (f : Nat → List α) (M : Nat)
    (hf : ∀ i, (f i).length = M) :
    ∀ n s l, s < n → l < M →
      ((List.range n).flatMap f).getD (s * M + l) default =
        (f s).getD l default := by
  intro n
  induction n with
  | zero => intro s l hs; omega
  | succ m ih =>
    intro s l hs hl
    rw [List.range_succ, List.flatMap_append]
    by_cases hsm : s < m
    · have hidx : s * M + l < ((List.range m).flatMap f).length := by
        rw [flatMapRange_length f M hf m]
        calc s * M + l < s * M + M := by omega
          _ = (s + 1) * M := by ring
          _ ≤ m * M := Nat.mul_le_mul_right M (by omega)
      unfold List.getD
      rw [List.get?_append hidx]
      exact ih s l hsm hl
    · have hsem : s = m := by omega
      subst hsem
      have hlen : ((List.range s).flatMap f).length = s * M :=
        flatMapRange_length f M hf s
      unfold List.getD
      rw [List.get?_append_right (by rw [hlen]; omega)]
      rw [hlen]
      simp only [List.flatMap_cons, List.flatMap_nil, List.append_nil]
      have hidx2 : s * M + l - s * M = l := by omega
      rw [hidx2]

lemma flatMapRange_mem {α : Type} (f : Nat → List α) (n : Nat) (x : α)
    (h : x ∈ (List.range n).flatMap f) : ∃ s, s < n ∧ x ∈ f s := by
  obtain ⟨s, hs, hx⟩ := List.mem_flatMap.mp h
  exact ⟨s, List.mem_range.mp hs, hx⟩

lemma paragraphBlock_length (temp : List SentenceStructure) (nr : Bool)
    (rs : Option String) (M : Nat) :
    (paragraphBlock temp nr rs M).length = M := by
  simp [paragraphBlock]

lemma paragraphBlock_getD (temp : List SentenceStructure) (nr : Bool)
    (rs : Option String) (M : Nat) (l : Nat) (hl : l < M) :
    (paragraphBlock temp nr rs M).getD l default =
      processStructureElements (temp.getD l default) nr rs := by
  have hlen : l < (paragraphBlock temp nr rs M).length := by
    rw [paragraphBlock_length]; exact hl
  rw [List.getD_eq_getElem _ default hlen]
  simp [paragraphBlock]

lemma buildWorking_length (temp : List SentenceStructure) (N M : Nat)
    (rs : Option String) : (buildWorking temp N M rs).length = N * M := by
  unfold buildWorking
  exact flatMapRange_length _ M (fun i => paragraphBlock_length temp _ rs M) N

lemma buildWorking_getD (temp : List SentenceStructure) (N M : Nat)
    (rs : Option String) (s l : Nat) (hs : s < N) (hl : l < M) :
    (buildWorking temp N M rs).getD (s * M + l) default =
      processStructureElements (temp.getD l default)
        (shouldLineRhyme (s + 1) N) rs := by
  unfold buildWorking
  rw [flatMapRange_getD _ M (fun i => paragraphBlock_length temp _ rs M) N s l
    hs hl]
  exact paragraphBlock_getD temp _ rs M l hl

lemma buildWorking_mem (temp : List SentenceStructure) (N M : Nat)
    (rs : Option String) (w : WorkingStructure)
    (h : w ∈ buildWorking temp N M rs) :
    ∃ l, l < M ∧ ∃ nr, w = processStructureElements (temp.getD l default)
      nr rs := by
  obtain ⟨s, hs, hw⟩ := flatMapRange_mem _ N w h
  unfold paragraphBlock at hw
  obtain ⟨l, hl, hwl⟩ := List.mem_map.mp hw
  exact ⟨l, by simpa using List.mem_range.mp hl, shouldLineRhyme (s + 1) N,
    hwl.symm⟩

lemma processStructureElements_punctuation (t : SentenceStructure) (nr : Bool)
    (rs : Option String) :
    (processStructureElements t nr rs).punctuation = t.punctuation := rfl

/-! ### Rendering lemmas -/

lemma generateLine_shape (ds : DataService) (w : WorkingStructure)
    (options : PoetryGenerationOptions) (rng : Rng) (k : Nat) (line : String)
    (next : Nat) (h : generateLine ds w options rng k = some (line, next)) :
    ∃ content : String, line = jsTrim (content ++ w.punctuation) := by
  unfold generateLine at h
  cases hloop : generateLineLoop ds options.useRhyme options.rhymeScheme rng
      w.elements 27 0 k "" with
  | none => rw [hloop] at h; simp at h
  | some p =>
    rw [hloop] at h
    simp only [Option.map_some'] at h
    injection h with h1
    injection h1 with h2 h3
    exact ⟨p.1, h2.symm⟩

lemma jsTrim_append_ne_empty (x p : String) (hp : jsTrim p ≠ "") :
    jsTrim (x ++ p) ≠ "" := by
  intro hcontra
  apply hp
  have hdata : trimChars (x.data ++ p.data) = [] := by
    have : (jsTrim (x ++ p)).data = ("" : String).data :=
      congrArg String.data hcontra
    simpa [jsTrim, string_data_append] using this
  have hws := (trimChars_eq_nil_iff (x.data ++ p.data)).mp hdata
  apply String.ext
  show trimChars p.data = ([] : List Char)
  rw [trimChars_eq_nil_iff]
  intro c hc
  exact hws c (List.mem_append.mpr (Or.inr hc))

lemma renderAll_spec (ds : DataService) (options : PoetryGenerationOptions)
    (rng : Rng) :
    ∀ (ws : List WorkingStructure) (k : Nat) (lines : List String)
      (final : Nat), renderAll ds options rng ws k = some (lines, final) →
        lines.length = ws.length ∧
          (∀ i, i < ws.length → ∃ j next,
            generateLine ds (ws.getD i default) options rng j =
              some (lines.getD i "", next)) ∧
          (∀ line ∈ lines, ∃ w ∈ ws, ∃ j next,
            generateLine ds w options rng j = some (line, next)) := by
  intro ws
  induction ws with
  | nil =>
    intro k lines final h
    rw [renderAll] at h
    injection h with h1
    injection h1 with h2 h3
    subst h2
    exact ⟨rfl, fun i hi => absurd hi (by simp), by simp⟩
  | cons w rest ih =>
    intro k lines final h
    rw [renderAll] at h
    cases hline : generateLine ds w options rng k with
    | none => rw [hline] at h; simp at h
    | some p =>
      obtain ⟨line0, k2⟩ := p
      rw [hline] at h
      dsimp only at h
      cases hrest : renderAll ds options rng rest k2 with
      | none => rw [hrest] at h; simp at h
      | some q =>
        obtain ⟨rlines, k3⟩ := q
        rw [hrest] at h
        dsimp only at h
        injection h with h1
        injection h1 with h2 h3
        obtain ⟨ihlen, ihidx, ihmem⟩ := ih k2 rlines k3 hrest
        subst h2
        refine ⟨by simp [ihlen], ?_, ?_⟩
        · intro i hi
          cases i with
          | zero => exact ⟨k, k2, by simpa using hline⟩
          | succ m =>
            have hm : m < rest.length := by simpa using hi
            obtain ⟨j, next, hj⟩ := ihidx m hm
            exact ⟨j, next, by simpa using hj⟩
        · intro line hline2
          rcases List.mem_cons.mp hline2 with hl | hl
          · subst hl
            exact ⟨w, List.mem_cons_self w rest, k, k2, hline⟩
          · obtain ⟨w2, hw2, j, next, hj⟩ := ihmem line hl
            exact ⟨w2, List.mem_cons_of_mem w hw2, j, next, hj⟩

/-! ### Concrete data for witnesses -/

/-- A one-template, one-noun store used by concrete witnesses. -/
def dsW : DataService :=
  { nouns := [⟨"山", "a", ""⟩], adjectives := [], intransitiveVerbs := [],
    transitiveVerbs := [], interjections := [],
    sentenceStructures := [⟨"a", 0, "。", ["MM"]⟩], specialWords := [] }

/-- Options used by concrete witnesses. -/
def optsW : PoetryGenerationOptions :=
  { style := .bold, paragraphCount := 1, linesPerParagraph := 1,
    useRhyme := false, rhymeScheme := none }

/-- A degenerate random stream used by concrete witnesses. -/
def rngW : Rng := fun _ => 0

/-- A compound template whose limitedRhyme is the expandable sentinel. -/
def c2Template : SentenceStructure :=
  { limitedRhyme := "E", compoundStructureCount := 2, punctuation := "。",
    elements := ["Dd"] }

/-- A template on which both halves of the C4 claim fail: eleven
expandable slots overflow the capacity of 30 and the mixed-case code
"Mm" survives expansion unchanged. -/
def c4Template : SentenceStructure :=
  { limitedRhyme := "E", compoundStructureCount := 0, punctuation := "。",
    elements := ["Dd", "Dd", "Dd", "Dd", "Dd", "Dd", "Dd", "Dd", "Dd", "Dd",
      "Dd", "Mm"] }

/-! ### Claim C2 -/

/-- C2 counterexample: the per-stanza rhyme flag does not govern the
compound expansion. On a template with an expandable slot and the
sentinel rhyme, processStructureElements returns the same WorkingStructure
for flag true and flag false, and the expansion fires even when the flag
is false. -/
theorem c2_counterexample :
    processStructureElements c2Template true (some "a") =
        processStructureElements c2Template false (some "a") ∧
      (processStructureElements c2Template false
        (some "a")).elements.getD 0 "" = "DV" := by
  decide

/-- C2 (amended): createStructure recomputes the rhyme flag from the
paragraph index against the paragraph count and passes it to
processStructureElements, but the produced WorkingStructure does not
depend on that flag (nor on the rhyme scheme argument): the compound
expansion is governed solely by the limitedRhyme field of the template. -/
theorem c2_flag_has_no_effect (t : SentenceStructure) (nr1 nr2 : Bool)
    (rs1 rs2 : Option String) :
    processStructureElements t nr1 rs1 = processStructureElements t nr2 rs2 :=
  rfl

/-! ### Claim C3 -/

/-- C3: during expansion, a slot is replaced by the three slots
[DV, 着, DO] exactly when the slot code is the plain intransitive code
"Dd" (as it is written in templates) and the limitedRhyme of the template
is the expandable sentinel "E"; every other slot code expands to exactly
one slot. -/
theorem c3_compound_expansion_rule (e lr : String) :
    (processElement e lr = ["DV", "着", "DO"] ↔ (e = "Dd" ∧ lr = "E")) ∧
      (¬(e = "Dd" ∧ lr = "E") → (processElement e lr).length = 1) := by
  constructor
  · constructor
    · intro h
      by_contra hne
      rw [processElement, if_neg hne] at h
      by_cases h2 : e.data.length = 2 ∧
          jsLowerChar (e.data.headD ' ') = e.data.headD ' '
      · rw [if_pos h2] at h
        exact absurd (congrArg List.length h) (by simp)
      · rw [if_neg h2] at h
        exact absurd (congrArg List.length h) (by simp)
    · intro h
      rw [processElement, if_pos h]
  · intro hne
    rw [processElement, if_neg hne]
    split_ifs <;> rfl

/-- C3 witness: a canonical tag under the sentinel rhyme still expands to
a single slot. -/
theorem c3_witness : (processElement "MM" "E").length = 1 :=
  (c3_compound_expansion_rule "MM" "E").2 (by decide)

/-! ### Claim C4 -/

/-- C4 counterexample: on c4Template (eleven expandable "Dd" slots and
one "Mm" slot, all within the 27-slot capacity) the produced elements
array has length 34, not 30, and still contains the non-canonical
mixed-case code "Mm". -/
theorem c4_counterexample :
    (processStructureElements c4Template true none).elements.length ≠ 30 ∧
      "Mm" ∈ (processStructureElements c4Template true none).elements := by
  decide

lemma processElement_no_lower_head (el lr e : String)
    (h : e ∈ processElement el lr) :
    ¬(e.data.length = 2 ∧ isAsciiLower (e.data.headD ' ') = true) := by
  rw [processElement] at h
  split_ifs at h with h1 h2
  · simp only [List.mem_cons, List.not_mem_nil, or_false] at h
    rcases h with rfl | rfl | rfl <;> decide
  · simp only [List.mem_cons, List.not_mem_nil, or_false] at h
    subst h
    obtain ⟨c1, c2, hc⟩ := List.length_eq_two.mp h2.1
    rintro ⟨hlen2, hlow⟩
    have hdata : (jsUpper el).data = [jsUpperChar c1, jsUpperChar c2] := by
      simp [jsUpper, hc]
    rw [hdata] at hlow
    simp only [List.headD_cons] at hlow
    rw [isAsciiLower_jsUpperChar] at hlow
    exact Bool.false_ne_true hlow
  · simp only [List.mem_cons, List.not_mem_nil, or_false] at h
    subst h
    rintro ⟨hlen2, hlow⟩
    exact h2 ⟨hlen2, jsLowerChar_eq_self_of_lower _ hlow⟩

/-- C4 (amended): the elements array of every produced WorkingStructure
has length exactly the maximum of 30 and the expanded slot count — hence
exactly 30 whenever the expansion fits the capacity, but longer when the
compound expansion overflows it — and expansion never leaves a
two-character slot code with an ASCII-lowercase first character (such
codes are uppercased); mixed-case codes like "Mm" pass through unchanged
and are normalized only later, per slot, during rendering. -/
theorem c4_amended_capacity (t : SentenceStructure) (nr : Bool)
    (rs : Option String) :
    (processStructureElements t nr rs).elements.length =
        max 30 (expandElements t).length ∧
      ((expandElements t).length ≤ 30 →
        (processStructureElements t nr rs).elements.length = 30) ∧
      ∀ e ∈ (processStructureElements t nr rs).elements,
        ¬(e.data.length = 2 ∧ isAsciiLower (e.data.headD ' ') = true) := by
  have hlen : (processStructureElements t nr rs).elements.length =
      max 30 (expandElements t).length := by
    show (padTo30 (expandElements t)).length = _
    simp only [padTo30, List.length_append, List.length_replicate]
    omega
  refine ⟨hlen, fun hle => by omega, ?_⟩
  intro e he
  have he2 : e ∈ expandElements t ∨ e ∈ List.replicate
      (30 - (expandElements t).length) "" := by
    have : e ∈ padTo30 (expandElements t) := he
    simpa [padTo30] using List.mem_append.mp this
  rcases he2 with hex | hpad
  · obtain ⟨el, hel, hee⟩ := List.mem_flatMap.mp hex
    exact processElement_no_lower_head el t.limitedRhyme e hee
  · rw [List.eq_of_mem_replicate hpad]
    decide

/-- C4 witness: an in-capacity template expands to exactly 30 slots. -/
theorem c4_witness :
    (processStructureElements ⟨"a", 0, "。", ["MM"]⟩ true
      none).elements.length = 30 :=
  (c4_amended_capacity ⟨"a", 0, "。", ["MM"]⟩ true none).2.1 (by decide)

/-! ### Claim C5 -/

/-- C5: template selection for one line position is total and bounded:
for a non-empty template table it always returns a template after
consuming at most 100 random draws, and the result either is a table
member passing the style and rhyme rejection rules (for quiet, element 10
of the raw template is the empty string; for both styles, the rhyme
rejection test is false), or is the first template of the table, used as
the fallback when the retry budget is exhausted. -/
theorem c5_selection_total (style : PoeticStyle)
    (structures : List SentenceStructure) (needsRhyme : Bool)
    (rhymeScheme : Option String) (rng : Rng) (k : Nat)
    (h : structures ≠ []) :
    ∃ s next, selectStructureByStyle style structures needsRhyme rhymeScheme
        rng k = some (s, next) ∧
      next ≤ k + 100 ∧ s ∈ structures ∧
      (((style = PoeticStyle.quiet → s.elements.get? 9 = some "") ∧
          rhymeRejected s needsRhyme rhymeScheme = false) ∨
        s = structures.headD default) := by
  have hf : ¬ (structures.isEmpty = true) := by simpa using h
  cases style with
  | quiet =>
    obtain ⟨m1, m2, m3⟩ :=
      selectQuietLoop_spec structures needsRhyme rhymeScheme rng h 100 k
    refine ⟨_, _, ?_, m2, m1, ?_⟩
    · simp [selectStructureByStyle, selectQuietStructure, if_neg hf]
      exact h
    · rcases m3 with ⟨ha, hb⟩ | hfall
      · exact Or.inl ⟨fun _ => ha, hb⟩
      · exact Or.inr hfall
  | bold =>
    obtain ⟨m1, m2, m3⟩ :=
      selectBoldLoop_spec structures needsRhyme rhymeScheme rng h 100 k
    refine ⟨_, _, ?_, m2, m1, ?_⟩
    · simp [selectStructureByStyle, selectBoldStructure, if_neg hf]
      exact h
    · rcases m3 with hb | hfall
      · exact Or.inl ⟨by intro hq; exact absurd hq (by decide), hb⟩
      · exact Or.inr hfall

/-- C5 witness: the theorem instantiated at a concrete one-template
table. -/
theorem c5_witness :
    ∃ s next, selectStructureByStyle PoeticStyle.bold
        [(⟨"a", 0, "。", ["MM"]⟩ : SentenceStructure)] true (some "a") rngW
        0 = some (s, next) ∧
      next ≤ 0 + 100 ∧
      s ∈ [(⟨"a", 0, "。", ["MM"]⟩ : SentenceStructure)] ∧
      (((PoeticStyle.bold = PoeticStyle.quiet →
          s.elements.get? 9 = some "") ∧
          rhymeRejected s true (some "a") = false) ∨
        s = [(⟨"a", 0, "。", ["MM"]⟩ : SentenceStructure)].headD default) :=
  c5_selection_total PoeticStyle.bold [⟨"a", 0, "。", ["MM"]⟩] true
    (some "a") rngW 0 (by decide)

/-! ### Claim C7 -/

lemma applyRhymeMapping_stable (y : String) (hy : jsTrim (jsLower y) = y) :
    normalizeRhymeScheme (applyRhymeMapping y) = applyRhymeMapping y := by
  by_cases h1 : y = "o"
  · subst h1; decide
  by_cases h2 : y = "uo"
  · subst h2; decide
  by_cases h3 : y = "ui"
  · subst h3; decide
  by_cases h4 : y = "in"
  · subst h4; decide
  by_cases h5 : y = "un"
  · subst h5; decide
  by_cases h6 : y = "vn"
  · subst h6; decide
  by_cases h7 : y = "ing"
  · subst h7; decide
  by_cases h8 : y = "ve"
  · subst h8; decide
  by_cases h9 : y = "iu"
  · subst h9; decide
  by_cases h10 : y = "z"
  · subst h10; decide
  have hA : applyRhymeMapping y = y := by
    simp [applyRhymeMapping, h1, h2, h3, h4, h5, h6, h7, h8, h9, h10]
  rw [hA]
  unfold normalizeRhymeScheme
  rw [hy, hA]

/-- C7: normalizeRhymeScheme is idempotent on every input string, and the
lowercasing plus trimming before the lookup collapses case and whitespace
variants: "O" and "uo" land in the class of "e", "z" lands in the class
of "r", and a spaced, cased variant lands where its plain form does. -/
theorem c7_normalize_idempotent :
    (∀ x : String,
        normalizeRhymeScheme (normalizeRhymeScheme x) =
          normalizeRhymeScheme x) ∧
      normalizeRhymeScheme "O" = normalizeRhymeScheme "e" ∧
      normalizeRhymeScheme "uo" = normalizeRhymeScheme "e" ∧
      normalizeRhymeScheme "z" = normalizeRhymeScheme "r" ∧
      normalizeRhymeScheme " O " = normalizeRhymeScheme "o" := by
  refine ⟨?_, by decide, by decide, by decide, by decide⟩
  intro x
  have hy : jsTrim (jsLower (jsTrim (jsLower x))) = jsTrim (jsLower x) :=
    normScrutinee_stable x
  calc normalizeRhymeScheme (normalizeRhymeScheme x)
      = normalizeRhymeScheme (applyRhymeMapping (jsTrim (jsLower x))) := rfl
    _ = applyRhymeMapping (jsTrim (jsLower x)) :=
        applyRhymeMapping_stable _ hy
    _ = normalizeRhymeScheme x := rfl

/-! ### Claim C6 -/

lemma selectBasicWord_rhyme_eval (words : List WordRecord) (scheme : String)
    (hs : scheme ≠ "") (rng : Rng) (k : Nat) :
    selectBasicWord words true (some scheme) rng k =
      if (words.filter (fun w => w.vowel == scheme)).isEmpty then
        (getRandomWord words rng k).map (fun p => (p.1.word, p.2))
      else
        (getRandomWord (words.filter (fun w => w.vowel == scheme)) rng
          k).map (fun p => (p.1.word, p.2)) := by
  unfold selectBasicWord
  dsimp only
  rw [if_neg hs]

lemma selectBasicWord_empty_scheme (words : List WordRecord) (rng : Rng)
    (k : Nat) :
    selectBasicWord words true (some "") rng k =
      (getRandomWord words rng k).map (fun p => (p.1.word, p.2)) := rfl

/-- C6: for the basic classes (noun MM, interjection TT, transitive verb
DJ, adjective XA, all dispatched to selectBasicWord over their pools),
rhyme-constrained selection with a given scheme — a truthy one, since the
falsy empty string disables the JS guard and takes the plain unfiltered
draw — restricts the pool to records whose vowel equals the scheme: when
the restriction is non-empty the drawn record comes from it and hence has
vowel equal to the requested scheme, and only when the restriction is
empty does selection fall back to the unfiltered pool. -/
theorem c6_basic_rhyme_restriction (ds : DataService)
    (words : List WordRecord) (scheme : String) (rng : Rng) (k : Nat)
    (hscheme : scheme ≠ "") :
    (words.filter (fun w => w.vowel == scheme) ≠ [] →
        ∃ rec next, rec ∈ words ∧ rec.vowel = scheme ∧
          selectBasicWord words true (some scheme) rng k =
            some (rec.word, next)) ∧
      (words.filter (fun w => w.vowel == scheme) = [] →
        selectBasicWord words true (some scheme) rng k =
          (getRandomWord words rng k).map (fun p => (p.1.word, p.2))) ∧
      selectBasicWord words true (some "") rng k =
        (getRandomWord words rng k).map (fun p => (p.1.word, p.2)) ∧
      selectWord ds "MM" true (some scheme) rng k =
        selectBasicWord ds.nouns true (some scheme) rng k ∧
      selectWord ds "TT" true (some scheme) rng k =
        selectBasicWord ds.interjections true (some scheme) rng k ∧
      selectWord ds "DJ" true (some scheme) rng k =
        selectBasicWord ds.transitiveVerbs true (some scheme) rng k ∧
      selectWord ds "XA" true (some scheme) rng k =
        selectBasicWord ds.adjectives true (some scheme) rng k := by
  refine ⟨?_, ?_, selectBasicWord_empty_scheme words rng k, rfl, rfl, rfl,
    rfl⟩
  · intro hne
    have hfe : ¬ ((words.filter (fun w => w.vowel == scheme)).isEmpty =
        true) := by simpa using hne
    have heval := selectBasicWord_rhyme_eval words scheme hscheme rng k
    rw [if_neg hfe] at heval
    have hg := getRandomWord_isSome (words.filter (fun w =>
      w.vowel == scheme)) rng k hne
    have hpos : 0 < (words.filter (fun w => w.vowel == scheme)).length :=
      List.length_pos.mpr hne
    have hmemf : (words.filter (fun w => w.vowel == scheme)).getD
        (randomBelow rng k (words.filter (fun w =>
          w.vowel == scheme)).length) default ∈
        words.filter (fun w => w.vowel == scheme) :=
      getD_mem_of_lt _ _ (Nat.mod_lt _ hpos)
    have hmw := List.mem_filter.mp hmemf
    refine ⟨_, k + 1, hmw.1, eq_of_beq hmw.2, ?_⟩
    rw [heval, hg]
    rfl
  · intro heq
    have heval := selectBasicWord_rhyme_eval words scheme hscheme rng k
    rw [if_pos (by rw [heq]; rfl)] at heval
    exact heval

/-- C6 witness: the restricted pool is hit at a concrete pool and a
concrete non-empty scheme. -/
theorem c6_witness :
    ∃ rec next, rec ∈ [(⟨"山", "a", ""⟩ : WordRecord)] ∧ rec.vowel = "a" ∧
      selectBasicWord [(⟨"山", "a", ""⟩ : WordRecord)] true (some "a") rngW
        0 = some (rec.word, next) :=
  (c6_basic_rhyme_restriction dsW [⟨"山", "a", ""⟩] "a" rngW 0
    (by decide)).1 (by decide)

/-! ### Claim C8 -/

lemma filter_singleton_hasSlash (rec : WordRecord)
    (hs : hasSlash rec.word = true) :
    [rec].filter (fun w => hasSlash w.word) = [rec] := by
  simp [List.filter_cons, hs]

lemma selectProgressiveVerb_singleton (rec : WordRecord) (nr : Bool)
    (rs : Option String) (rng : Rng) (k : Nat) (hs : hasSlash rec.word = true)
    (a b : List Char) (hsp : splitFirstSlash rec.word.data = some (a, b)) :
    selectProgressiveVerb [rec] nr rs rng k =
      some ((⟨a⟩ : String) ++ "着" ++ (⟨b⟩ : String), k + 1) := by
  unfold selectProgressiveVerb
  rw [filter_singleton_hasSlash rec hs]
  dsimp only
  have hcand : (match nr, rs with
      | true, some scheme =>
        if scheme = "" then [rec]
        else
          let rhymingWords := [rec].filter (fun w => w.vowel == scheme)
          if rhymingWords.isEmpty then [rec] else rhymingWords
      | _, _ => [rec]) = [rec] := by
    cases nr with
    | false => rfl
    | true =>
      cases rs with
      | none => rfl
      | some scheme =>
        dsimp only
        by_cases hes : scheme = ""
        · rw [if_pos hes]
        · rw [if_neg hes]
          by_cases hv : rec.vowel == scheme
          · simp [List.filter_cons, hv]
          · simp [List.filter_cons, hv]
  rw [hcand]
  rw [if_neg (by simp)]
  rw [getRandomWord_singleton]
  dsimp only
  rw [hsp]

lemma selectResultativeVerb_singleton (rec : WordRecord) (rng : Rng) (k : Nat)
    (hs : hasSlash rec.word = true)
    (a b : List Char) (hsp : splitFirstSlash rec.word.data = some (a, b)) :
    selectResultativeVerb [rec] rng k =
      some (jsTrim (⟨b⟩ : String) ++ (⟨a⟩ : String) ++ "得", k + 1) := by
  unfold selectResultativeVerb
  rw [filter_singleton_hasSlash rec hs]
  dsimp only
  rw [if_neg (by simp)]
  rw [getRandomWord_singleton]
  dsimp only
  rw [hsp]

/-- C8: for a record whose text holds the separator exactly once, the
progressive selector splits at the separator and returns
stem + 着 + complement (so the output always carries the progressive
suffix), and the resultative selector returns
trimmed complement + stem + 得 (so the output always carries the
resultative suffix and never the separator); on the single record 骑/马
the outputs are 骑着马 and 马骑得. -/
theorem c8_splittable_verb_forms (rec : WordRecord) (needsRhyme : Bool)
    (rhymeScheme : Option String) (rng : Rng) (k : Nat)
    (hone : rec.word.data.count '/' = 1) :
    ∃ a b, splitFirstSlash rec.word.data = some (a, b) ∧
      selectProgressiveVerb [rec] needsRhyme rhymeScheme rng k =
        some ((⟨a⟩ : String) ++ "着" ++ (⟨b⟩ : String), k + 1) ∧
      selectResultativeVerb [rec] rng k =
        some (jsTrim (⟨b⟩ : String) ++ (⟨a⟩ : String) ++ "得", k + 1) ∧
      '/' ∉ (jsTrim (⟨b⟩ : String) ++ (⟨a⟩ : String) ++
        ("得" : String)).data ∧
      '着' ∈ ((⟨a⟩ : String) ++ "着" ++ (⟨b⟩ : String)).data ∧
      '得' ∈ (jsTrim (⟨b⟩ : String) ++ (⟨a⟩ : String) ++
        ("得" : String)).data ∧
      selectProgressiveVerb [(⟨"骑/马", "", ""⟩ : WordRecord)] needsRhyme
        rhymeScheme rng k = some ("骑着马", k + 1) ∧
      selectResultativeVerb [(⟨"骑/马", "", ""⟩ : WordRecord)] rng k =
        some ("马骑得", k + 1) := by
  have hmem : '/' ∈ rec.word.data := by
    have hpos : 0 < rec.word.data.count '/' := by omega
    exact List.count_pos_iff.mp hpos
  have hslash : hasSlash rec.word = true := by
    simpa [hasSlash] using hmem
  obtain ⟨a, b, hsp⟩ := splitFirstSlash_of_mem rec.word.data hmem
  obtain ⟨hdecomp, hnota⟩ := splitFirstSlash_eq rec.word.data a b hsp
  have hnotb : '/' ∉ b := by
    rw [hdecomp, List.count_append, List.count_cons_self] at hone
    have hca : a.count '/' = 0 := List.count_eq_zero.mpr hnota
    have hcb : b.count '/' = 0 := by omega
    exact List.count_eq_zero.mp hcb
  refine ⟨a, b, hsp,
    selectProgressiveVerb_singleton rec needsRhyme rhymeScheme rng k hslash a
      b hsp,
    selectResultativeVerb_singleton rec rng k hslash a b hsp,
    ?_, ?_, ?_, ?_, ?_⟩
  · intro hcontra
    rw [string_data_append, string_data_append] at hcontra
    rcases List.mem_append.mp hcontra with hx | hx
    · rcases List.mem_append.mp hx with hy | hy
      · exact hnotb (trimChars_subset b '/' (by simpa [jsTrim] using hy))
      · exact hnota (by simpa using hy)
    · exact absurd hx (by decide)
  · rw [string_data_append, string_data_append]
    refine List.mem_append.mpr (Or.inl (List.mem_append.mpr (Or.inr ?_)))
    decide
  · rw [string_data_append, string_data_append]
    refine List.mem_append.mpr (Or.inr ?_)
    decide
  · have h1 := selectProgressiveVerb_singleton ⟨"骑/马", "", ""⟩ needsRhyme
      rhymeScheme rng k (by decide) ['骑'] ['马'] (by decide)
    rw [show ((⟨['骑']⟩ : String) ++ "着" ++ (⟨['马']⟩ : String)) = "骑着马"
      from by decide] at h1
    exact h1
  · have h2 := selectResultativeVerb_singleton ⟨"骑/马", "", ""⟩ rng k
      (by decide) ['骑'] ['马'] (by decide)
    rw [show (jsTrim (⟨['马']⟩ : String) ++ (⟨['骑']⟩ : String) ++ "得") =
      "马骑得" from by decide] at h2
    exact h2

/-- C8 witness: the theorem applied to the record 骑/马 itself. -/
theorem c8_witness :
    ∃ a b, splitFirstSlash ("骑/马" : String).data = some (a, b) ∧
      selectProgressiveVerb [(⟨"骑/马", "", ""⟩ : WordRecord)] false none
        rngW 0 = some ((⟨a⟩ : String) ++ "着" ++ (⟨b⟩ : String), 0 + 1) ∧
      selectResultativeVerb [(⟨"骑/马", "", ""⟩ : WordRecord)] rngW 0 =
        some (jsTrim (⟨b⟩ : String) ++ (⟨a⟩ : String) ++ "得", 0 + 1) ∧
      '/' ∉ (jsTrim (⟨b⟩ : String) ++ (⟨a⟩ : String) ++
        ("得" : String)).data ∧
      '着' ∈ ((⟨a⟩ : String) ++ "着" ++ (⟨b⟩ : String)).data ∧
      '得' ∈ (jsTrim (⟨b⟩ : String) ++ (⟨a⟩ : String) ++
        ("得" : String)).data ∧
      selectProgressiveVerb [(⟨"骑/马", "", ""⟩ : WordRecord)] false none
        rngW 0 = some ("骑着马", 0 + 1) ∧
      selectResultativeVerb [(⟨"骑/马", "", ""⟩ : WordRecord)] rngW 0 =
        some ("马骑得", 0 + 1) :=
  c8_splittable_verb_forms ⟨"骑/马", "", ""⟩ false none rngW 0 (by decide)

/-! ### Claim C9 -/

/-- C9: every successfully rendered line is the trim of the walked slots
followed by the punctuation of its structure; whenever the punctuation
field is itself trim-stable (as every punctuation mark in the shipped
tables is), the returned line therefore ends with that punctuation. -/
theorem c9_line_ends_with_punctuation (ds : DataService)
    (w : WorkingStructure) (options : PoetryGenerationOptions) (rng : Rng)
    (k : Nat) (line : String) (next : Nat)
    (hp : jsTrim w.punctuation = w.punctuation)
    (h : generateLine ds w options rng k = some (line, next)) :
    ∃ pre : String, line = pre ++ w.punctuation := by
  obtain ⟨content, hc⟩ := generateLine_shape ds w options rng k line next h
  cases hpd : w.punctuation.data with
  | nil =>
    refine ⟨line, ?_⟩
    have hempty : w.punctuation = "" := String.ext (by rw [hpd])
    rw [hempty]
    have happ : line ++ "" = line := by
      apply String.ext
      rw [string_data_append]
      simp
    exact happ.symm
  | cons c t =>
    have hpt : trimChars (c :: t) = c :: t := by
      have hph := congrArg String.data hp
      simpa [jsTrim, hpd] using hph
    have happ := trimChars_append_trimmed content.data c t hpt
    refine ⟨⟨trimLeftChars content.data⟩, ?_⟩
    apply String.ext
    rw [hc]
    show trimChars (content ++ w.punctuation).data = _
    rw [string_data_append, hpd, happ, string_data_append, hpd]

/-- C9 witness: a concrete rendered line ends with its punctuation. -/
theorem c9_witness : ∃ pre : String, "山。" = pre ++ "。" := by
  have h := c9_line_ends_with_punctuation dsW
    (processStructureElements ⟨"a", 0, "。", ["MM"]⟩ true none) optsW rngW 0
    "山。" 1 (by decide) (by decide)
  exact h

/-! ### Claim C10 -/

/-- C10: for the plain intransitive tag DD, a required rhyme with a given
scheme — truthy, since the falsy empty-string scheme skips the JS guard
and behaves like no scheme at all — that no entry of the pool matches
makes selection throw (the rhyme-filtered pool is drawn from with no
fallback, and drawing from an empty list is the thrown empty-word-list
error), whereas the basic-class rule of MM, TT, DJ and XA silently falls
back to the unfiltered pool in the same situation. -/
theorem c10_dd_rhyme_no_fallback (words : List WordRecord) (scheme : String)
    (rng : Rng) (k : Nat) (hscheme : scheme ≠ "")
    (hempty : words.filter (fun w => w.vowel == scheme) = []) :
    selectIntransitiveVerb words true (some scheme) rng k = none ∧
      selectIntransitiveVerb words true (some "") rng k =
        selectIntransitiveVerb words false none rng k ∧
      (words ≠ [] → ∃ w next, selectBasicWord words true (some scheme) rng
        k = some (w, next)) := by
  refine ⟨?_, rfl, ?_⟩
  · unfold selectIntransitiveVerb getRandomRhymingWord
    dsimp only
    rw [if_neg hscheme, hempty]
    rfl
  · intro hne
    have heval := selectBasicWord_rhyme_eval words scheme hscheme rng k
    rw [if_pos (by rw [hempty]; rfl)] at heval
    rw [heval, getRandomWord_isSome words rng k hne]
    exact ⟨_, k + 1, rfl⟩

/-- C10 witness: a pool with no entry in vowel class a throws for DD but
falls back for the basic classes, and the falsy empty scheme takes the
unfiltered path. -/
theorem c10_witness :
    selectIntransitiveVerb [(⟨"飞", "i", ""⟩ : WordRecord)] true (some "a")
        rngW 0 = none ∧
      selectIntransitiveVerb [(⟨"飞", "i", ""⟩ : WordRecord)] true (some "")
          rngW 0 =
        selectIntransitiveVerb [(⟨"飞", "i", ""⟩ : WordRecord)] false none
          rngW 0 ∧
      ([(⟨"飞", "i", ""⟩ : WordRecord)] ≠ [] → ∃ w next,
        selectBasicWord [(⟨"飞", "i", ""⟩ : WordRecord)] true (some "a")
          rngW 0 = some (w, next)) :=
  c10_dd_rhyme_no_fallback [⟨"飞", "i", ""⟩] "a" rngW 0 (by decide)
    (by decide)

/-! ### Claim C1 -/

/-- C1: for any style, any paragraph and line counts at least 1, and any
rhyme options, a successful generatePoetry run over a store whose
templates all carry trim-stable non-blank punctuation returns exactly
paragraphCount * linesPerParagraph lines, all non-empty, in stanza-major
order: the line stored at index s * linesPerParagraph + l is rendered
from the expansion of the base template selected for line position l,
with the rhyme flag recomputed from stanza index s + 1 against the
stanza count. -/
theorem c1_generate_counts (ds : DataService)
    (options : PoetryGenerationOptions) (rng : Rng) (k : Nat)
    (lines : List String) (final : Nat)
    (hN : 1 ≤ options.paragraphCount) (hM : 1 ≤ options.linesPerParagraph)
    (hpunct : ∀ t ∈ ds.sentenceStructures, jsTrim t.punctuation ≠ "")
    (hrun : generatePoetry ds options rng k = some (lines, final)) :
    lines.length = options.paragraphCount * options.linesPerParagraph ∧
      (∀ line ∈ lines, line ≠ "") ∧
      ∃ temp k1, selectTempLoop ds.sentenceStructures options.style
          options.rhymeScheme rng options.linesPerParagraph
          options.linesPerParagraph k = some (temp, k1) ∧
        temp.length = options.linesPerParagraph ∧
        ∀ s l, s < options.paragraphCount → l < options.linesPerParagraph →
          ∃ j next, generateLine ds
              (processStructureElements (temp.getD l default)
                (shouldLineRhyme (s + 1) options.paragraphCount)
                options.rhymeScheme) options rng j =
            some (lines.getD (s * options.linesPerParagraph + l) "", next) := by
  unfold generatePoetry at hrun
  cases hcs : createStructure ds options.paragraphCount
      options.linesPerParagraph options.style options.rhymeScheme rng k with
  | none => rw [hcs] at hrun; simp at hrun
  | some p =>
    obtain ⟨ws, k1⟩ := p
    rw [hcs] at hrun
    dsimp only at hrun
    unfold createStructure at hcs
    cases htemp : selectTempLoop ds.sentenceStructures options.style
        options.rhymeScheme rng options.linesPerParagraph
        options.linesPerParagraph k with
    | none => rw [htemp] at hcs; simp at hcs
    | some q =>
      obtain ⟨temp, k2⟩ := q
      rw [htemp] at hcs
      dsimp only at hcs
      injection hcs with hcs1
      injection hcs1 with hws hk
      obtain ⟨htlen, htmem⟩ := selectTempLoop_spec ds.sentenceStructures
        options.style options.rhymeScheme rng options.linesPerParagraph
        options.linesPerParagraph k temp k2 htemp
      obtain ⟨hlenlines, hidx, hmems⟩ :=
        renderAll_spec ds options rng ws k1 lines final hrun
      have hwslen : ws.length =
          options.paragraphCount * options.linesPerParagraph := by
        rw [← hws]
        exact buildWorking_length temp options.paragraphCount
          options.linesPerParagraph options.rhymeScheme
      refine ⟨by rw [hlenlines, hwslen], ?_, temp, k2, rfl, htlen, ?_⟩
      · intro line hline
        obtain ⟨w, hw, j, next, hj⟩ := hmems line hline
        obtain ⟨content, hcline⟩ :=
          generateLine_shape ds w options rng j line next hj
        rw [← hws] at hw
        obtain ⟨l, hl, nr, hweq⟩ := buildWorking_mem temp
          options.paragraphCount options.linesPerParagraph
          options.rhymeScheme w hw
        have hbmem : temp.getD l default ∈ ds.sentenceStructures :=
          htmem _ (getD_mem_of_lt temp l (by rw [htlen]; exact hl))
        have hwp : w.punctuation = (temp.getD l default).punctuation := by
          rw [hweq]
          exact processStructureElements_punctuation _ _ _
        rw [hcline, hwp]
        exact jsTrim_append_ne_empty content _ (hpunct _ hbmem)
      · intro s l hs hl
        have hiwslt : s * options.linesPerParagraph + l < ws.length := by
          rw [hwslen]
          calc s * options.linesPerParagraph + l <
              s * options.linesPerParagraph + options.linesPerParagraph := by
                omega
            _ = (s + 1) * options.linesPerParagraph := by ring
            _ ≤ options.paragraphCount * options.linesPerParagraph :=
                Nat.mul_le_mul_right _ (by omega)
        obtain ⟨j, next, hj⟩ := hidx (s * options.linesPerParagraph + l)
          hiwslt
        refine ⟨j, next, ?_⟩
        rw [← hj]
        congr 1
        rw [← hws]
        exact (buildWorking_getD temp options.paragraphCount
          options.linesPerParagraph options.rhymeScheme s l hs hl).symm

/-- C1 witness: the concrete one-template, one-noun pipeline yields
exactly one non-empty line. -/
theorem c1_witness :
    (["山。"] : List String).length = 1 * 1 ∧
      ∀ line ∈ (["山。"] : List String), line ≠ "" := by
  have h := c1_generate_counts dsW optsW rngW 0 ["山。"] 2 (by decide)
    (by decide) (by decide) (by decide)
  exact ⟨h.1, h.2.1⟩

end CyberPoet
